import Mathlib

/-!
Shallow embedding of the quiltracker application (src/app.py): the metrics
pipeline (compute_metrics), the CSV loading and aggregation in the index
route, and the update_balance ingest route.

Modelling conventions:
* pandas timestamps are rational numbers of seconds on the time axis
  (the epoch is hour-aligned, so flooring to the hour is truncation to a
  multiple of 3600);
* float balances are rationals, with pandas NaN ("missing") represented by
  the none case of an Option;
* the float values flowing through the rate computation, where division by
  zero can produce IEEE infinities and NaN, are represented exactly by the
  type PVal below (finite rational, +inf, -inf, NaN) with the IEEE rules
  for division and multiplication on those values.
-/

/-- A pandas float value as it flows through compute_metrics: a finite
value (exact rational), positive or negative infinity, or NaN. -/
inductive PVal where
  | fin (q : ℚ)
  | pinf
  | ninf
  | nan
deriving DecidableEq, Repr

/-- IEEE-754 multiplication on PVal values (used for the pandas product
of a rate column with the scalar price). -/
def PVal.mul : PVal → PVal → PVal
  | .nan, _ => .nan
  | _, .nan => .nan
  | .fin a, .fin b => .fin (a * b)
  | .fin a, .pinf => if 0 < a then .pinf else if a < 0 then .ninf else .nan
  | .fin a, .ninf => if 0 < a then .ninf else if a < 0 then .pinf else .nan
  | .pinf, .fin b => if 0 < b then .pinf else if b < 0 then .ninf else .nan
  | .ninf, .fin b => if 0 < b then .ninf else if b < 0 then .pinf else .nan
  | .pinf, .pinf => .pinf
  | .pinf, .ninf => .ninf
  | .ninf, .pinf => .ninf
  | .ninf, .ninf => .pinf

/-- One row of the merged dataframe handed to compute_metrics: the peer id
(column "Peer ID"), the timestamp in seconds (column "Date", already parsed
to a datetime), and the balance (column "Balance", NaN represented as
none). -/
structure Row where
  peer : String
  date : ℚ
  bal : Option ℚ
deriving DecidableEq, Repr

/-- Grouping by "Peer ID": pandas groupby restricted to one group keeps the
dataframe rows of that peer in row order. -/
def groupRows (rows : List Row) (p : String) : List Row :=
  rows.filter (fun r => r.peer = p)

/-- The raw Quil_Per_Minute value for a row with predecessor prev in its
peer group, before fillna: Time_Diff = (date diff in seconds)/60 and
Quil_Per_Minute = balance diff / Time_Diff, with IEEE division semantics
(0/0 = NaN, nonzero/0 = signed infinity, NaN operand propagates). -/
def rateRaw (prev cur : Row) : PVal :=
  match prev.bal, cur.bal with
  | some b0, some b1 =>
      let dt : ℚ := (cur.date - prev.date) / 60
      let db : ℚ := b1 - b0
      if dt = 0 then
        (if db = 0 then .nan else if 0 < db then .pinf else .ninf)
      else .fin (db / dt)
  | _, _ => .nan

/-- Raw rates for the successive rows of one peer group, given the previous
row: one PVal per row. -/
def pairRates : Row → List Row → List PVal
  | _, [] => []
  | prev, c :: rs => rateRaw prev c :: pairRates c rs

/-- Raw Quil_Per_Minute column for one peer group (in group row order):
the first row has no predecessor, so its diff-based value is NaN. -/
def qpmRawList : List Row → List PVal
  | [] => []
  | r :: rs => PVal.nan :: pairRates r rs

/-- The fillna(0) step: NaN becomes 0, all other values are unchanged
(infinities are NOT touched by fillna). -/
def fillZero : PVal → PVal
  | .nan => .fin 0
  | v => v

/-- Quil_Per_Minute column for one peer group after fillna(0). -/
def qpmList (rs : List Row) : List PVal :=
  (qpmRawList rs).map fillZero

/-- Earnings_Per_Minute column for one peer group: Quil_Per_Minute times
the wQUIL price (no fillna is applied after this product). -/
def earnList (rs : List Row) (price : ℚ) : List PVal :=
  (qpmList rs).map (fun v => v.mul (.fin price))

/-- Date.dt.floor of a timestamp to the start of its hour. -/
def hourFloor (t : ℚ) : ℚ :=
  3600 * (⌊t / 3600⌋ : ℤ)

/-- The distinct Hour keys of one peer group, ascending, as produced by
grouping on the Hour column (pandas groupby sorts the group keys). -/
def bucketHours (rs : List Row) : List ℚ :=
  List.insertionSort (fun a b : ℚ => a ≤ b) ((rs.map (fun r => hourFloor r.date)).dedup)

/-- The last non-null entry of a column, none when all entries are null:
the semantics of the pandas groupby last aggregation. -/
def lastSome (l : List (Option ℚ)) : Option ℚ :=
  l.foldl (fun acc v => match v with | some q => some q | none => acc) none

/-- The representative balance of each hourly bucket of one peer group:
for each hour (ascending) the last non-null Balance among the rows of that
hour, in row order. -/
def hourlyBalances (rs : List Row) : List (Option ℚ) :=
  (bucketHours rs).map
    (fun h => lastSome ((rs.filter (fun r => hourFloor r.date = h)).map (fun r => r.bal)))

/-- Successive balance differences over the hourly buckets after the first,
given the previous bucket balance: a diff with a null operand is NaN, and
the following fillna(0) turns it into 0. -/
def growthPairs : Option ℚ → List (Option ℚ) → List ℚ
  | _, [] => []
  | prev, c :: bs =>
      (match prev, c with
       | some a, some b => b - a
       | _, _ => 0) :: growthPairs c bs

/-- The Growth column over one peer group of hourly buckets: the first
bucket diff is NaN, filled to 0. -/
def growthOf : List (Option ℚ) → List ℚ
  | [] => []
  | b :: bs => 0 :: growthPairs b bs

/-- Growth column for one peer group, from its hourly bucket balances. -/
def hourlyGrowth (rs : List Row) : List ℚ :=
  growthOf (hourlyBalances rs)

/-- Earnings_USD column for one peer group: Growth times the wQUIL price
(Growth is always a finite number after its fillna(0)). -/
def hourlyEarnings (rs : List Row) (price : ℚ) : List ℚ :=
  (hourlyGrowth rs).map (fun g => g * price)

/-- The output of compute_metrics restricted to one peer group: the
per-row rate columns and the per-hour aggregate columns. -/
structure PeerMetrics where
  qpm : List PVal
  earnPerMin : List PVal
  hours : List ℚ
  hourBal : List (Option ℚ)
  growth : List ℚ
  earnUSD : List ℚ
deriving DecidableEq, Repr

/-- compute_metrics of src/app.py, restricted to the group of one peer id:
all derived columns for that peer. -/
def computeMetrics (rows : List Row) (p : String) (price : ℚ) : PeerMetrics :=
  let rs := groupRows rows p
  { qpm := qpmList rs
    earnPerMin := earnList rs price
    hours := bucketHours rs
    hourBal := hourlyBalances rs
    growth := hourlyGrowth rs
    earnUSD := hourlyEarnings rs price }

/-!
Series loading (the index route of src/app.py): reading the per-peer CSV
files, normalizing the Balance column, concatenating, parsing the Date
column with pandas to_datetime, and sorting by Date.

Text parsing of the external pandas functions is modelled on the record
format this system itself writes (update_balance appends
"timestamp,peer_id,balance" lines): a numeric field is an optional minus
sign, digits and at most one decimal point, and a timestamp is a
"YYYY-MM-DD HH:MM:SS" string. Any other text is unparseable, as it is for
the corresponding pandas call on such input.
-/

/-- One raw CSV record as read by pandas read_csv: the Date, Peer ID and
Balance fields as text. -/
structure RawRec where
  date : String
  peer : String
  balance : String
deriving DecidableEq, Repr

/-- Decimal value of a digit character. -/
def digitVal (c : Char) : Nat := c.toNat - 48

/-- Decimal number denoted by a list of digit characters. -/
def digitsToNat (l : List Char) : Nat :=
  l.foldl (fun acc c => 10 * acc + digitVal c) 0

/-- Whether every character of the list is a decimal digit. -/
def allDigits (l : List Char) : Bool :=
  l.all (fun c => c.isDigit)

/-- Split a character list on a separator character. -/
def splitOnChar (sep : Char) : List Char → List (List Char)
  | [] => [[]]
  | c :: cs =>
      let r := splitOnChar sep cs
      if c = sep then [] :: r
      else
        match r with
        | [] => [[c]]
        | g :: gs => (c :: g) :: gs

/-- A nonempty all-digit character list parsed as a number, none otherwise. -/
def toNatQ (l : List Char) : Option Nat :=
  if !l.isEmpty && allDigits l then some (digitsToNat l) else none

/-- An unsigned decimal numeral (digits with at most one decimal point,
at least one digit) parsed as an exact rational; none when Python float
conversion of the text would fail. -/
def parseUnsigned (l : List Char) : Option ℚ :=
  match splitOnChar '.' l with
  | [ip] =>
      if !ip.isEmpty && allDigits ip then some (digitsToNat ip) else none
  | [ip, fp] =>
      if (!ip.isEmpty || !fp.isEmpty) && allDigits ip && allDigits fp then
        some ((digitsToNat ip : ℚ) + (digitsToNat fp : ℚ) / 10 ^ fp.length)
      else none
  | _ => none

/-- A decimal numeral with an optional leading minus sign parsed as an
exact rational. -/
def parseFloat (s : String) : Option ℚ :=
  match s.toList with
  | [] => none
  | c :: rest =>
      if c = '-' then (parseUnsigned rest).map Neg.neg
      else parseUnsigned (c :: rest)

/-- Whether a character can be part of the regex class of digits and dots
used by the Balance normalization pattern. -/
def isNumChar (c : Char) : Bool := c.isDigit || c = '.'

/-- First match of the regex of one capture group of digits and dots in the
str.extract call: the first maximal run of digit-or-dot characters, none
when the text has no such character (pandas then yields NaN). -/
def extractRun : List Char → Option (List Char)
  | [] => none
  | c :: cs => if isNumChar c then some ((c :: cs).takeWhile isNumChar) else extractRun cs

/-- One Balance field after the str.extract + astype(float) normalization
of the index route: no match gives a NaN balance (the record is kept), a
matched run that float conversion cannot parse raises a ValueError,
modelled as the error case. -/
def normalizeBalance (s : String) : Except String (Option ℚ) :=
  match extractRun s.toList with
  | none => Except.ok none
  | some run =>
      match parseUnsigned run with
      | some q => Except.ok (some q)
      | none => Except.error ("could not convert string to float: " ++ String.mk run)

/-- Whether pandas read_csv parses the whole Balance column of a file as
numbers (float dtype); otherwise the column has object dtype and the
index route sends it through str.extract. -/
def balanceColNumeric (recs : List RawRec) : Bool :=
  recs.all (fun r => (parseFloat r.balance).isSome)

/-- An intermediate record of one loaded file: Date still text, Balance
already normalized (NaN as none). -/
structure PreRow where
  date : String
  peer : String
  bal : Option ℚ
deriving DecidableEq, Repr

/-- Monadic map over a list in the Except monad, stopping at the first
error, written out explicitly. -/
def mapExc {α β : Type} (f : α → Except String β) : List α → Except String (List β)
  | [] => Except.ok []
  | x :: xs =>
      match f x with
      | Except.error e => Except.error e
      | Except.ok y =>
          match mapExc f xs with
          | Except.error e => Except.error e
          | Except.ok ys => Except.ok (y :: ys)

/-- Reading one CSV file in the index route: a fully numeric Balance
column is used as parsed; an object-dtype column goes record by record
through the str.extract normalization. -/
def loadFile (recs : List RawRec) : Except String (List PreRow) :=
  if balanceColNumeric recs then
    Except.ok (recs.map (fun r => ⟨r.date, r.peer, parseFloat r.balance⟩))
  else
    mapExc (fun r => (normalizeBalance r.balance).map (fun b => (⟨r.date, r.peer, b⟩ : PreRow))) recs

/-- Models pandas.to_datetime with its default errors raise on one Date
field: a "YYYY-MM-DD HH:MM:SS" string (with in-range fields) becomes a
point on the time axis, measured in seconds, with day, hour and minute
boundaries placed faithfully and dates ordered as the calendar orders
them; any other text is unparseable. -/
def parseTs (s : String) : Option ℚ :=
  match splitOnChar ' ' s.toList with
  | [d, t] =>
      match splitOnChar '-' d, splitOnChar ':' t with
      | [y, mo, da], [h, mi, se] =>
          match toNatQ y, toNatQ mo, toNatQ da, toNatQ h, toNatQ mi, toNatQ se with
          | some yv, some mov, some dav, some hv, some miv, some sev =>
              if 1 ≤ mov && mov ≤ 12 && 1 ≤ dav && dav ≤ 31
                  && hv ≤ 23 && miv ≤ 59 && sev ≤ 59 then
                some ((((((yv * 372 + (mov - 1) * 31 + (dav - 1)) * 24 + hv) * 60 + miv) * 60 + sev : Nat) : ℚ))
              else none
          | _, _, _, _, _, _ => none
      | _, _ => none
  | _ => none

/-- The ordering of the sort_values call on the Date column. -/
def dateLe (a b : Row) : Prop := a.date ≤ b.date

instance : DecidableRel dateLe := fun a b => inferInstanceAs (Decidable (a.date ≤ b.date))

instance : IsTotal Row dateLe := ⟨fun a b => le_total a.date b.date⟩

instance : IsTrans Row dateLe := ⟨fun _ _ _ h1 h2 => le_trans h1 h2⟩

/-- The sort_values pass over the combined dataframe: a permutation of the
rows that is sorted by Date. The pandas call uses its default quicksort,
whose order among equal dates is an implementation detail; the sorted
permutation is modelled as an insertion sort, and nothing proved about
the aggregates below depends on the order of date ties. -/
def sortByDate (rows : List Row) : List Row :=
  List.insertionSort dateLe rows

/-- The whole CSV loading of the index route: per-file Balance
normalization, concatenation, one to_datetime pass over the combined Date
column (its default errors raise: one bad timestamp aborts the load), then
the sort by Date. -/
def loadAll (files : List (List RawRec)) : Except String (List Row) :=
  match mapExc loadFile files with
  | Except.error e => Except.error e
  | Except.ok pres =>
      match mapExc (fun r : PreRow =>
          match parseTs r.date with
          | some t => Except.ok (⟨r.peer, t, r.bal⟩ : Row)
          | none => Except.error ("Unknown datetime string format: " ++ r.date)) pres.flatten with
      | Except.error e => Except.error e
      | Except.ok rows => Except.ok (sortByDate rows)

/-!
Aggregate summary of the index route: the latest balance per peer and the
rounded total, computed on the sorted combined dataframe.
-/

/-- The distinct Peer ID values of the dataframe. -/
def peersOf (rows : List Row) : List String :=
  (rows.map (fun r => r.peer)).dedup

/-- The Balance entry of the groupby Peer ID last aggregation for one
peer: the last non-null Balance among the rows of that peer, in dataframe
row order. -/
def latestBalance (rows : List Row) (p : String) : Option ℚ :=
  lastSome ((groupRows rows p).map (fun r => r.bal))

/-- Round half to even to an integer: the tie rule of the Python round
builtin. -/
def rhe (x : ℚ) : ℤ :=
  if x - ⌊x⌋ = 1 / 2 then (if 2 ∣ ⌊x⌋ then ⌊x⌋ else ⌊x⌋ + 1) else round x

/-- Rounding to 4 decimal places as the index route applies to the total
balance. -/
def round4 (x : ℚ) : ℚ := (rhe (x * 10000) : ℚ) / 10000

/-- The total balance of the index route: the dataframe is sorted by Date,
the last non-null Balance per peer is taken (a null balance contributes
nothing to the sum, which skips missing values), and the sum is rounded
to 4 decimal places. -/
def indexTotalBalance (rows : List Row) : ℚ :=
  round4 ((((peersOf (sortByDate rows))).map
    (fun p => (latestBalance (sortByDate rows) p).getD 0)).sum)

/-- The balance of the latest Observation of a peer in the sense of the
specification: the balance of the unique row of that peer whose timestamp
is maximal among the rows of the peer; none when the peer has no rows or
several rows share the maximal timestamp. -/
def specLatestBal (rows : List Row) (p : String) : Option ℚ :=
  match (groupRows rows p).filter (fun r => (groupRows rows p).all (fun s => s.date ≤ r.date)) with
  | [r] => r.bal
  | _ => none

/-!
The update_balance ingest route: field checks by Python truthiness and the
append of one CSV line.
-/

/-- A JSON value in a parsed request body. -/
inductive JVal where
  | str (s : String)
  | num (q : ℚ)
  | jbool (b : Bool)
  | null
deriving DecidableEq, Repr

/-- Python truthiness of a JSON value: the empty string, the number zero,
false and null are falsy. -/
def truthy : JVal → Bool
  | .str s => !s.isEmpty
  | .num q => decide (q ≠ 0)
  | .jbool b => b
  | .null => false

/-- Dictionary lookup of a field of the parsed JSON object. -/
def getField : List (String × JVal) → String → Option JVal
  | [], _ => none
  | kv :: rest, k => if kv.fst = k then some kv.snd else getField rest k

/-- Python truthiness of the result of dict.get: a missing field is falsy. -/
def falsyOpt : Option JVal → Bool
  | none => true
  | some v => !truthy v

/-- The update_balance route on a parsed JSON object body: the HTTP status
and the records appended to the peer CSV file, each in the written field
order (timestamp, peer id, balance). An empty body and any falsy field are
rejected with 400 and nothing is appended. -/
def update_balance (data : List (String × JVal)) : Nat × List (JVal × JVal × JVal) :=
  if data.isEmpty then (400, [])
  else
    let pid := getField data "peer_id"
    let bal := getField data "balance"
    let ts := getField data "timestamp"
    if falsyOpt pid || falsyOpt bal || falsyOpt ts then (400, [])
    else (200, [(ts.getD JVal.null, pid.getD JVal.null, bal.getD JVal.null)])

/-!
Fixtures: the concrete inputs of the documented scenarios, and a
decidable equality for Except values used to evaluate loader runs.
-/

/-- The three observations of the documented scenario for peer A. -/
def scenarioRows (T : ℚ) : List Row :=
  [⟨"A", T, some 10⟩, ⟨"A", T + 60, some 12⟩, ⟨"A", T + 120, some 15⟩]

instance {e a : Type} [DecidableEq e] [DecidableEq a] : DecidableEq (Except e a) := fun x y =>
  match x, y with
  | .error e1, .error e2 =>
      if h : e1 = e2 then isTrue (by rw [h]) else isFalse (fun hc => by cases hc; exact h rfl)
  | .error _, .ok _ => isFalse (fun hc => by cases hc)
  | .ok _, .error _ => isFalse (fun hc => by cases hc)
  | .ok v1, .ok v2 =>
      if h : v1 = v2 then isTrue (by rw [h]) else isFalse (fun hc => by cases hc; exact h rfl)

/-- A combined CSV file pair for the loading scenarios: a good record and
one with an unparseable timestamp. -/
def fileGood : List RawRec := [⟨"2024-01-01 00:00:00", "peer1", "5"⟩]

/-- A file whose only record has a timestamp to_datetime cannot parse. -/
def fileBad : List RawRec := [⟨"not-a-date", "peer2", "7"⟩]

/-- A file whose Balance column mixes a unit-suffixed number and a field
with no digits at all, as in the documented normalization scenario. -/
def fileMixed : List RawRec :=
  [⟨"2024-01-01 00:00:00", "p1", "12.3 QUIL"⟩, ⟨"2024-01-01 01:00:00", "p1", "abc"⟩]

/-- The two single-observation peers of the documented total-balance
scenario, with balances 5 and 7.5. -/
def twoPeerRows : List Row := [⟨"A", 0, some 5⟩, ⟨"B", 0, some (15 / 2)⟩]

/-- A report whose three fields are all present and non-empty, with a
numeric balance of exactly 0. -/
def reqZeroBalance : List (String × JVal) :=
  [("peer_id", JVal.str "peer1"), ("balance", JVal.num 0),
   ("timestamp", JVal.str "2024-01-01 00:00:00")]

/-!
Theorems: the claims about the program, with their helper lemmas.
-/

/-!
Helper lemmas about the rate pipeline.
-/

/-- The fillna(0) step never leaves a NaN behind. -/
theorem fillZero_ne_nan : ∀ v, fillZero v ≠ PVal.nan := by
  intro v
  cases v <;> simp [fillZero]

/-- Every entry of the Quil_Per_Minute column is free of NaN. -/
theorem mem_qpmList_ne_nan {rs : List Row} {v : PVal} (hv : v ∈ qpmList rs) :
    v ≠ PVal.nan := by
  rcases List.mem_map.mp hv with ⟨w, _, rfl⟩
  exact fillZero_ne_nan w

/-- Position of the rate of an adjacent pair inside pairRates. -/
theorem pairRates_getElem (x : Row) (xs : List Row) (p c : Row) (ys : List Row) :
    (pairRates x (xs ++ p :: c :: ys))[xs.length + 1]? = some (rateRaw p c) := by
  induction xs generalizing x with
  | nil => simp [pairRates]
  | cons a xs ih => simpa [pairRates] using ih a

/-- Position of the rate of an adjacent pair inside the raw rate column. -/
theorem qpmRaw_getElem (xs : List Row) (p c : Row) (ys : List Row) :
    (qpmRawList (xs ++ p :: c :: ys))[xs.length + 1]? = some (rateRaw p c) := by
  cases xs with
  | nil => simp [qpmRawList, pairRates]
  | cons a xs => simpa [qpmRawList] using pairRates_getElem a xs p c ys

/-- Claim C1: for every peer group with at least one observation, the first
Quil_Per_Minute entry of the group is exactly 0 (the first diff is NaN and
fillna turns it into 0). -/
theorem first_rate_zero (rows : List Row) (p : String) (price : ℚ)
    (h : groupRows rows p ≠ []) :
    (computeMetrics rows p price).qpm.head? = some (PVal.fin 0) := by
  rcases hg : groupRows rows p with _ | ⟨r, rs⟩
  · exact absurd hg h
  · simp [computeMetrics, qpmList, qpmRawList, hg, fillZero]

theorem first_rate_zero_witness :
    groupRows [(⟨"A", 0, some 5⟩ : Row)] "A" ≠ [] ∧
      (computeMetrics [(⟨"A", 0, some 5⟩ : Row)] "A" 1).qpm.head? = some (PVal.fin 0) :=
  ⟨by decide, first_rate_zero _ _ _ (by decide)⟩

/-- Claim C2: balances 10, 12, 15 at T, T+60s, T+120s give rates 0, 2, 3
quil per minute and, at price 2, earnings 0, 4, 6 USD per minute. -/
theorem scenario_rates_and_earnings (T : ℚ) :
    (computeMetrics (scenarioRows T) "A" 2).qpm = [PVal.fin 0, PVal.fin 2, PVal.fin 3] ∧
    (computeMetrics (scenarioRows T) "A" 2).earnPerMin = [PVal.fin 0, PVal.fin 4, PVal.fin 6] := by
  have h1 : (T + 60 - T) / 60 = (1 : ℚ) := by ring
  have h2 : (T + 120 - (T + 60)) / 60 = (1 : ℚ) := by ring
  constructor <;>
    norm_num [computeMetrics, groupRows, List.filter_cons, scenarioRows, qpmList, qpmRawList,
      pairRates, rateRaw, fillZero, earnList, PVal.mul, h1, h2]

/-- Claim C3 counterexample: two observations of peer A with the same
timestamp and balances 1 and 2 produce a positive infinity in the
Quil_Per_Minute column (the zero time delta makes the division 1/0, and
fillna(0) does not remove infinities), not the claimed 0. -/
theorem dup_timestamp_infinity :
    (computeMetrics [(⟨"A", 0, some 1⟩ : Row), ⟨"A", 0, some 2⟩] "A" 2).qpm
        = [PVal.fin 0, PVal.pinf] ∧ PVal.pinf ≠ PVal.fin 0 := by
  constructor
  · norm_num [computeMetrics, groupRows, List.filter_cons, qpmList, qpmRawList, pairRates,
      rateRaw, fillZero]
  · decide

/-- Claim C3 amended: for consecutive observations of a peer with equal
timestamps, the rate is 0 when the balances are also equal (a 0/0 NaN that
fillna turns into 0), and a signed infinity when the balances differ. -/
theorem dup_timestamp_policy (rows : List Row) (p : String) (price : ℚ)
    (xs ys : List Row) (prev cur : Row) (b0 b1 : ℚ)
    (hg : groupRows rows p = xs ++ prev :: cur :: ys)
    (ht : cur.date = prev.date) (h0 : prev.bal = some b0) (h1 : cur.bal = some b1) :
    (computeMetrics rows p price).qpm[xs.length + 1]? =
      some (if b1 = b0 then PVal.fin 0
            else if b0 < b1 then PVal.pinf else PVal.ninf) := by
  have hrate : rateRaw prev cur =
      if b1 = b0 then PVal.nan else if b0 < b1 then PVal.pinf else PVal.ninf := by
    simp [rateRaw, h0, h1, ht, sub_eq_zero, sub_pos]
  have hidx := qpmRaw_getElem xs prev cur ys
  simp only [computeMetrics, qpmList, hg, List.getElem?_map, hidx, Option.map_some]
  rcases eq_or_ne b1 b0 with he | he
  · simp [hrate, he, fillZero]
  · rcases lt_or_le b0 b1 with hlt | hle
    · simp [hrate, he, hlt, fillZero]
    · have : ¬ b0 < b1 := not_lt.mpr hle
      simp [hrate, he, this, fillZero]

theorem dup_timestamp_policy_witness :
    groupRows [(⟨"A", 0, some 1⟩ : Row), ⟨"A", 0, some 2⟩] "A"
        = [] ++ (⟨"A", 0, some 1⟩ : Row) :: (⟨"A", 0, some 2⟩ : Row) :: [] ∧
    (computeMetrics [(⟨"A", 0, some 1⟩ : Row), ⟨"A", 0, some 2⟩] "A" 1).qpm[1]? =
      some PVal.pinf := by
  refine ⟨by simp [groupRows, List.filter_cons], ?_⟩
  have h := dup_timestamp_policy [(⟨"A", 0, some 1⟩ : Row), ⟨"A", 0, some 2⟩] "A" 1
    [] [] ⟨"A", 0, some 1⟩ ⟨"A", 0, some 2⟩ 1 2
    (by simp [groupRows, List.filter_cons]) rfl rfl rfl
  norm_num at h
  exact h

/-- Claim C6 counterexample: with a duplicate timestamp and differing
balances, the rate is +infinity and the per-minute USD earnings under
price 0 is NaN (inf times 0), not the claimed 0. -/
theorem infinite_rate_price_zero_nan :
    (computeMetrics [(⟨"A", 0, some 1⟩ : Row), ⟨"A", 0, some 2⟩] "A" 0).earnPerMin
        = [PVal.fin 0, PVal.nan] ∧ PVal.nan ≠ PVal.fin 0 := by
  constructor
  · norm_num [computeMetrics, groupRows, List.filter_cons, qpmList, qpmRawList, pairRates,
      rateRaw, fillZero, earnList, PVal.mul]
  · decide

/-- Claim C6 amended: when every Quil_Per_Minute entry of the peer group
is finite (no duplicate-timestamp pair with differing balances), a run at
price 0 has every USD-denominated entry exactly 0 (per-minute earnings
and hourly earnings), and the non-USD columns (rates, hours, bucket
balances, growth) coincide with those of a run at any other price. -/
theorem price_unavailable_zeroes_earnings (rows : List Row) (p : String) (price : ℚ)
    (hfin : ∀ v ∈ (computeMetrics rows p 0).qpm, v ≠ PVal.pinf ∧ v ≠ PVal.ninf) :
    (∀ e ∈ (computeMetrics rows p 0).earnPerMin, e = PVal.fin 0) ∧
    (∀ g ∈ (computeMetrics rows p 0).earnUSD, g = 0) ∧
    (computeMetrics rows p 0).qpm = (computeMetrics rows p price).qpm ∧
    (computeMetrics rows p 0).growth = (computeMetrics rows p price).growth ∧
    (computeMetrics rows p 0).hours = (computeMetrics rows p price).hours ∧
    (computeMetrics rows p 0).hourBal = (computeMetrics rows p price).hourBal := by
  refine ⟨?_, ?_, rfl, rfl, rfl, rfl⟩
  · intro e he
    simp only [computeMetrics, earnList, List.mem_map] at he
    rcases he with ⟨v, hv, rfl⟩
    have hnan : v ≠ PVal.nan := mem_qpmList_ne_nan hv
    have hinf := hfin v (by simpa [computeMetrics] using hv)
    rcases v with q | _ | _ | _
    · simp [PVal.mul]
    · exact absurd rfl hinf.1
    · exact absurd rfl hinf.2
    · exact absurd rfl hnan
  · intro g hg
    simp only [computeMetrics, hourlyEarnings, List.mem_map] at hg
    rcases hg with ⟨x, _, rfl⟩
    exact mul_zero x

theorem price_unavailable_zeroes_earnings_witness :
    (∀ v ∈ (computeMetrics [(⟨"A", 0, some 5⟩ : Row)] "A" 0).qpm,
        v ≠ PVal.pinf ∧ v ≠ PVal.ninf) ∧
    (∀ e ∈ (computeMetrics [(⟨"A", 0, some 5⟩ : Row)] "A" 0).earnPerMin, e = PVal.fin 0) ∧
    (∀ g ∈ (computeMetrics [(⟨"A", 0, some 5⟩ : Row)] "A" 0).earnUSD, g = 0) ∧
    (computeMetrics [(⟨"A", 0, some 5⟩ : Row)] "A" 0).qpm
      = (computeMetrics [(⟨"A", 0, some 5⟩ : Row)] "A" 3).qpm := by
  have hfin : ∀ v ∈ (computeMetrics [(⟨"A", 0, some 5⟩ : Row)] "A" 0).qpm,
      v ≠ PVal.pinf ∧ v ≠ PVal.ninf := by
    intro v hv
    simp [computeMetrics, groupRows, List.filter_cons, qpmList, qpmRawList, pairRates,
      fillZero] at hv
    subst hv
    exact ⟨by decide, by decide⟩
  have h := price_unavailable_zeroes_earnings [(⟨"A", 0, some 5⟩ : Row)] "A" 3 hfin
  exact ⟨hfin, h.1, h.2.1, h.2.2.1⟩

/-- The sum of the pairwise growth entries telescopes when every bucket
balance is present. -/
theorem growthPairs_sum (a : ℚ) (bs : List ℚ) :
    (growthPairs (some a) (bs.map some)).sum = bs.getLast?.getD a - a := by
  induction bs generalizing a with
  | nil => simp [growthPairs]
  | cons b bs ih =>
      have hsum : (growthPairs (some a) ((b :: bs).map some)).sum =
          (b - a) + (growthPairs (some b) (bs.map some)).sum := by
        simp [growthPairs]
      rw [hsum, ih b]
      cases bs with
      | nil => simp
      | cons c cs =>
          rcases hl : (c :: cs).getLast? with _ | l
          · simp at hl
          · simp [List.getLast?_cons_cons, hl]

/-- The Growth column sums telescopically when every bucket balance is
present. -/
theorem growthOf_sum (b : ℚ) (bs : List ℚ) :
    (growthOf ((b :: bs).map some)).sum = (b :: bs).getLast?.getD 0 - b := by
  have h : (growthOf ((b :: bs).map some)).sum = (growthPairs (some b) (bs.map some)).sum := by
    simp [growthOf]
  rw [h, growthPairs_sum b bs]
  cases bs with
  | nil => simp
  | cons c cs =>
      rcases hl : (c :: cs).getLast? with _ | l
      · simp at hl
      · simp [List.getLast?_cons_cons, hl]

/-- Claim C8: for a peer whose hourly buckets all have a present balance
and number at least 2, the sum of the Growth column equals the last bucket
balance minus the first bucket balance. -/
theorem growth_telescopes (rows : List Row) (p : String) (price : ℚ) (bs : List ℚ)
    (hb : (computeMetrics rows p price).hourBal = bs.map some)
    (h2 : 2 ≤ bs.length) :
    (computeMetrics rows p price).growth.sum = bs.getLast?.getD 0 - bs.head?.getD 0 := by
  simp only [computeMetrics] at hb ⊢
  rw [hourlyGrowth, hb]
  cases bs with
  | nil => simp at h2
  | cons b bs => simpa using growthOf_sum b bs

theorem growth_telescopes_witness :
    (computeMetrics [(⟨"A", 0, some 1⟩ : Row), ⟨"A", 3600, some 5⟩] "A" 1).hourBal
        = [(1 : ℚ), 5].map some ∧
    2 ≤ ([(1 : ℚ), 5]).length ∧
    (computeMetrics [(⟨"A", 0, some 1⟩ : Row), ⟨"A", 3600, some 5⟩] "A" 1).growth.sum
        = ([(1 : ℚ), 5]).getLast?.getD 0 - ([(1 : ℚ), 5]).head?.getD 0 := by
  have hb : (computeMetrics [(⟨"A", 0, some 1⟩ : Row), ⟨"A", 3600, some 5⟩] "A" 1).hourBal
      = [(1 : ℚ), 5].map some := by
    norm_num [computeMetrics, groupRows, List.filter_cons, hourlyBalances, bucketHours,
      hourFloor, lastSome, List.dedup, List.insertionSort, List.orderedInsert, List.pwFilter,
      List.filter_cons]
  exact ⟨hb, by norm_num, growth_telescopes _ _ _ _ hb (by norm_num)⟩

/-- The last non-null entry of a column ending in a present value is that
value. -/
theorem lastSome_append_some (xs : List (Option ℚ)) (q : ℚ) :
    lastSome (xs ++ [some q]) = some q := by
  simp [lastSome, List.foldl_append]

/-- In a list sorted by date, the date of each element is at most the date of
the last element. -/
theorem sorted_le_getLast {l : List Row} (hs : List.Sorted dateLe l) (hne : l ≠ []) :
    ∀ x ∈ l, x.date ≤ (l.getLast hne).date := by
  induction l with
  | nil => cases hne rfl
  | cons a l ih =>
      intro x hx
      rcases List.mem_cons.mp hx with rfl | hx2
      · cases l with
        | nil => simp [List.getLast]
        | cons b l2 =>
            have hab : dateLe x b := (List.sorted_cons.mp hs).1 b (List.mem_cons_self b l2)
            have := ih (List.sorted_cons.mp hs).2 (by simp) b (List.mem_cons_self b l2)
            rw [List.getLast_cons (by simp)]
            exact le_trans hab this
      · cases l with
        | nil => simp at hx2
        | cons b l2 =>
            rw [List.getLast_cons (by simp)]
            exact ih (List.sorted_cons.mp hs).2 (by simp) x hx2

/-- On a dataframe sorted by Date, the groupby-last balance of a peer that
has a unique latest observation with a present balance is exactly the balance
of that observation. -/
theorem latestBalance_of_specLatest {rows : List Row} {p : String} {q : ℚ}
    (hs : List.Sorted dateLe rows)
    (h : specLatestBal rows p = some q) :
    latestBalance rows p = some q := by
  have hsorted : List.Sorted dateLe (groupRows rows p) := List.Pairwise.filter _ hs
  rcases hf : (groupRows rows p).filter
      (fun r => (groupRows rows p).all (fun s => s.date ≤ r.date)) with _ | ⟨r, rest⟩
  · rw [specLatestBal, hf] at h
    simp at h
  · rcases rest with _ | ⟨r2, rest2⟩
    case cons.cons => rw [specLatestBal, hf] at h; simp at h
    case cons.nil =>
    rw [specLatestBal, hf] at h
    have hrbal : r.bal = some q := by simpa using h
    have hrmem : r ∈ (groupRows rows p).filter
        (fun r => (groupRows rows p).all (fun s => s.date ≤ r.date)) := by
      rw [hf]; exact List.mem_cons_self r []
    have hne : groupRows rows p ≠ [] :=
      List.ne_nil_of_mem (List.mem_of_mem_filter hrmem)
    set l := (groupRows rows p).getLast hne with hldef
    have hlmem : l ∈ groupRows rows p := List.getLast_mem hne
    have hlmax : ∀ x ∈ groupRows rows p, x.date ≤ l.date :=
      sorted_le_getLast hsorted hne
    have hlf : l ∈ (groupRows rows p).filter
        (fun r => (groupRows rows p).all (fun s => s.date ≤ r.date)) := by
      refine List.mem_filter.mpr ⟨hlmem, ?_⟩
      simp only [List.all_eq_true, decide_eq_true_eq]
      exact hlmax
    rw [hf] at hlf
    have hlr : l = r := by simpa using hlf
    have hdecomp : (groupRows rows p).dropLast ++ [l] = groupRows rows p :=
      List.dropLast_append_getLast hne
    rw [latestBalance, ← hdecomp, List.map_append, List.map_cons, List.map_nil, hlr, hrbal]
    exact lastSome_append_some _ q

/-- The sort_values pass leaves the dataframe sorted by Date. -/
theorem sortByDate_sorted (rows : List Row) : List.Sorted dateLe (sortByDate rows) := by
  rw [sortByDate]
  exact List.sorted_insertionSort dateLe rows

/-- Claim C7: when every peer of the dataset has a unique latest
observation (maximal timestamp) and its balance is present, the total
balance of the index route equals the sum over all peers of the balance of
that latest observation, rounded to 4 decimal places. -/
theorem total_balance_spec (rows : List Row)
    (h : ∀ p ∈ peersOf (sortByDate rows), ∃ q, specLatestBal (sortByDate rows) p = some q) :
    indexTotalBalance rows =
      round4 (((peersOf (sortByDate rows)).map
        (fun p => (specLatestBal (sortByDate rows) p).getD 0)).sum) := by
  rw [indexTotalBalance]
  refine congrArg round4 (congrArg List.sum (List.map_congr_left ?_))
  intro p hp
  obtain ⟨q, hq⟩ := h p hp
  rw [latestBalance_of_specLatest (sortByDate_sorted rows) hq, hq]

theorem total_balance_spec_witness :
    (∀ p ∈ peersOf (sortByDate twoPeerRows),
        ∃ q, specLatestBal (sortByDate twoPeerRows) p = some q) ∧
    indexTotalBalance twoPeerRows = 25 / 2 := by
  have hsort : sortByDate twoPeerRows = twoPeerRows := by
    norm_num [sortByDate, twoPeerRows, List.insertionSort, List.orderedInsert, dateLe]
  have hAB : (("A" : String) = "B") = False := by simp
  have hBA : (("B" : String) = "A") = False := by simp
  have hpeers : peersOf twoPeerRows = ["A", "B"] := by
    norm_num [peersOf, twoPeerRows, List.dedup, List.pwFilter, hAB, hBA]
  have hA : specLatestBal twoPeerRows "A" = some 5 := by
    norm_num [specLatestBal, groupRows, twoPeerRows, List.filter_cons, List.all_cons, hAB, hBA]
  have hB : specLatestBal twoPeerRows "B" = some (15 / 2) := by
    norm_num [specLatestBal, groupRows, twoPeerRows, List.filter_cons, List.all_cons, hAB, hBA]
  have hyp : ∀ p ∈ peersOf (sortByDate twoPeerRows),
      ∃ q, specLatestBal (sortByDate twoPeerRows) p = some q := by
    rw [hsort, hpeers]
    intro p hp
    rcases List.mem_cons.mp hp with rfl | hp2
    · exact ⟨5, hA⟩
    · rcases List.mem_cons.mp hp2 with rfl | hp3
      · exact ⟨15 / 2, hB⟩
      · simp at hp3
  refine ⟨hyp, ?_⟩
  have h := total_balance_spec twoPeerRows hyp
  rw [h, hsort, hpeers]
  norm_num [hA, hB, round4, rhe, round_eq]

/-- mapExc succeeds when the function succeeds pointwise. -/
theorem mapExc_ok_of_forall {α β : Type} (f : α → Except String β) (g : α → β)
    (l : List α) (h : ∀ x ∈ l, f x = Except.ok (g x)) :
    mapExc f l = Except.ok (l.map g) := by
  induction l with
  | nil => simp [mapExc]
  | cons a l ih =>
      rw [mapExc, h a (List.mem_cons_self a l),
        ih (fun x hx => h x (List.mem_cons_of_mem a hx))]
      simp

/-- A successful mapExc run means the function succeeded on every
element. -/
theorem mapExc_ok_forall {α β : Type} {f : α → Except String β} {l : List α}
    {v : List β} (h : mapExc f l = Except.ok v) :
    ∀ x ∈ l, ∃ y, f x = Except.ok y := by
  induction l generalizing v with
  | nil => simp
  | cons a l ih =>
      intro x hx
      rw [mapExc] at h
      rcases hfa : f a with e | y
      · rw [hfa] at h; cases h
      · rw [hfa] at h
        rcases hrest : mapExc f l with e | ys
        · rw [hrest] at h; cases h
        · rcases List.mem_cons.mp hx with rfl | hx2
          · exact ⟨y, hfa⟩
          · exact ih hrest x hx2

/-- Claim C5 counterexample: one record with an unparseable timestamp makes
the whole load raise (to_datetime with its default errors raise), so no
records at all are loaded; the well-formed record of the other file is not
loaded either, against the claimed drop-and-continue behavior. -/
theorem bad_timestamp_aborts_load :
    loadAll [fileGood, fileBad]
        = Except.error "Unknown datetime string format: not-a-date" ∧
    ∀ rows, loadAll [fileGood, fileBad] ≠ Except.ok rows := by
  have h : loadAll [fileGood, fileBad]
      = Except.error "Unknown datetime string format: not-a-date" := by decide
  exact ⟨h, fun rows hc => by rw [h] at hc; cases hc⟩

/-- Claim C5 amended: whenever the balance normalization succeeded and any
record of the concatenated files has an unparseable timestamp, loadAll
aborts with an error; no record of any file is loaded. -/
theorem bad_timestamp_aborts (files : List (List RawRec)) (pres : List (List PreRow))
    (hnorm : mapExc loadFile files = Except.ok pres)
    (hbad : ∃ r ∈ pres.flatten, parseTs r.date = none) :
    ∃ e, loadAll files = Except.error e := by
  obtain ⟨r, hr, hp⟩ := hbad
  rcases hres : mapExc (fun r : PreRow =>
      match parseTs r.date with
      | some t => Except.ok (⟨r.peer, t, r.bal⟩ : Row)
      | none => Except.error ("Unknown datetime string format: " ++ r.date)) pres.flatten
    with e | rows
  · exact ⟨e, by simp only [loadAll, hnorm, hres]⟩
  · obtain ⟨y, hy⟩ := mapExc_ok_forall hres r hr
    rw [hp] at hy
    cases hy

theorem bad_timestamp_aborts_witness :
    mapExc loadFile [fileGood, fileBad]
        = Except.ok [[⟨"2024-01-01 00:00:00", "peer1", parseFloat "5"⟩],
                     [⟨"not-a-date", "peer2", parseFloat "7"⟩]] ∧
    (∃ r ∈ ([[(⟨"2024-01-01 00:00:00", "peer1", parseFloat "5"⟩ : PreRow)],
             [⟨"not-a-date", "peer2", parseFloat "7"⟩]] : List (List PreRow)).flatten,
        parseTs r.date = none) ∧
    ∃ e, loadAll [fileGood, fileBad] = Except.error e := by
  have h1 : mapExc loadFile [fileGood, fileBad]
      = Except.ok [[⟨"2024-01-01 00:00:00", "peer1", parseFloat "5"⟩],
                   [⟨"not-a-date", "peer2", parseFloat "7"⟩]] := by
    simp only [mapExc,
      show loadFile fileGood
        = Except.ok [⟨"2024-01-01 00:00:00", "peer1", parseFloat "5"⟩] from by decide,
      show loadFile fileBad
        = Except.ok [⟨"not-a-date", "peer2", parseFloat "7"⟩] from by decide]
  have h2 : ∃ r ∈ ([[(⟨"2024-01-01 00:00:00", "peer1", parseFloat "5"⟩ : PreRow)],
      [⟨"not-a-date", "peer2", parseFloat "7"⟩]] : List (List PreRow)).flatten,
      parseTs r.date = none :=
    ⟨⟨"not-a-date", "peer2", parseFloat "7"⟩, by simp, by decide⟩
  exact ⟨h1, h2, bad_timestamp_aborts _ _ h1 h2⟩

/-- Claim C4 counterexample: the record whose balance field "abc" has no
numeric substring is NOT dropped — loading keeps it with a missing (NaN)
balance, so the loaded file still has two records; the suffixed field
"12.3 QUIL" is normalized to 12.3 as claimed. -/
theorem no_digit_record_kept :
    loadFile fileMixed = Except.ok
      [⟨"2024-01-01 00:00:00", "p1", some (123 / 10)⟩,
       ⟨"2024-01-01 01:00:00", "p1", none⟩] ∧
    loadFile fileMixed ≠ Except.ok
      [⟨"2024-01-01 00:00:00", "p1", some (123 / 10)⟩] := by
  have h : loadFile fileMixed = Except.ok
      [⟨"2024-01-01 00:00:00", "p1", some (123 / 10)⟩,
       ⟨"2024-01-01 01:00:00", "p1", none⟩] := by
    have hn1 : normalizeBalance "12.3 QUIL" = Except.ok (some (123 / 10)) := by
      have he : extractRun "12.3 QUIL".toList = some ['1', '2', '.', '3'] := by decide
      have hp : parseUnsigned ['1', '2', '.', '3'] = some (123 / 10) := by
        rw [show parseUnsigned ['1', '2', '.', '3']
            = some ((digitsToNat ['1', '2'] : ℚ) + (digitsToNat ['3'] : ℚ) / 10 ^ 1) from rfl,
          show digitsToNat ['1', '2'] = 12 from by decide,
          show digitsToNat ['3'] = 3 from by decide]
        norm_num
      simp only [normalizeBalance, he, hp]
    have hn2 : normalizeBalance "abc" = Except.ok none := by decide
    rw [loadFile, if_neg (by decide : ¬ (balanceColNumeric fileMixed = true))]
    simp only [fileMixed, mapExc, hn1, hn2, Except.map]
  refine ⟨h, fun hc => ?_⟩
  rw [h] at hc
  simp at hc

/-- Claim C4 amended: when the Balance column of a file is non-numeric (object
dtype) and every extracted digit run is float-parseable, loading keeps
every record: a field containing a decimal-number substring is normalized
to the value of the first such substring, and a field with no numeric substring
yields a missing (NaN) balance on a record that is retained, not dropped;
the load does not abort. -/
theorem object_balance_normalization (recs : List RawRec)
    (hobj : balanceColNumeric recs = false)
    (hok : ∀ r ∈ recs, ∀ run, extractRun r.balance.toList = some run →
      (parseUnsigned run).isSome = true) :
    loadFile recs = Except.ok (recs.map (fun r =>
      (⟨r.date, r.peer, (extractRun r.balance.toList).bind parseUnsigned⟩ : PreRow))) := by
  rw [loadFile, if_neg (by simp [hobj])]
  apply mapExc_ok_of_forall
  intro r hr
  rcases he : extractRun r.balance.data with _ | run
  · simp [normalizeBalance, String.toList, he, Except.map]
  · obtain ⟨q, hq⟩ := Option.isSome_iff_exists.mp
      (hok r hr run (show extractRun r.balance.toList = some run from he))
    simp [normalizeBalance, String.toList, he, hq, Except.map]

theorem object_balance_normalization_witness :
    balanceColNumeric fileMixed = false ∧
    (∀ r ∈ fileMixed, ∀ run, extractRun r.balance.toList = some run →
      (parseUnsigned run).isSome = true) ∧
    loadFile fileMixed = Except.ok (fileMixed.map (fun r =>
      (⟨r.date, r.peer, (extractRun r.balance.toList).bind parseUnsigned⟩ : PreRow))) := by
  have hobj : balanceColNumeric fileMixed = false := by decide
  have hok : ∀ r ∈ fileMixed, ∀ run, extractRun r.balance.toList = some run →
      (parseUnsigned run).isSome = true := by
    intro r hr run hrun
    rcases List.mem_cons.mp hr with rfl | hr2
    · rw [show extractRun ("12.3 QUIL" : String).toList = some ['1', '2', '.', '3']
          from by decide] at hrun
      cases hrun
      decide
    · rcases List.mem_cons.mp hr2 with rfl | hr3
      · rw [show extractRun ("abc" : String).toList = none from by decide] at hrun
        cases hrun
      · simp at hr3
  exact ⟨hobj, hok, object_balance_normalization fileMixed hobj hok⟩

/-- Claim C9 counterexample: a report with peer_id, balance and timestamp
all present and non-empty, whose balance is the number 0, is rejected with
a 400 and nothing appended — the Python truthiness check treats the number
0 as missing. -/
theorem zero_balance_rejected :
    getField reqZeroBalance "balance" = some (JVal.num 0) ∧
    JVal.num 0 ≠ JVal.str "" ∧ JVal.num 0 ≠ JVal.null ∧
    update_balance reqZeroBalance = (400, []) := by
  have h1 : (("peer_id" : String) = "balance") = False := by simp
  have h2 : (("peer_id" : String) = "timestamp") = False := by simp
  have h3 : (("balance" : String) = "timestamp") = False := by simp
  have h4 : ("peer1" : String).isEmpty = false := by decide
  refine ⟨by simp [reqZeroBalance, getField, h1], by simp, by simp, ?_⟩
  norm_num [update_balance, reqZeroBalance, getField, falsyOpt, truthy, h1, h2, h3, h4]

/-- Claim C9 amended: the ingest rejects with 400 and appends nothing
exactly when the parsed body is empty or one of peer_id, balance,
timestamp is absent or Python-falsy (empty string, the number 0, false, or
null); in every other case it appends exactly one record — the written
line (timestamp, peer id, balance) — and signals success with 200. -/
theorem update_balance_characterization (data : List (String × JVal)) :
    (update_balance data = (400, []) ↔
      (data = [] ∨ falsyOpt (getField data "peer_id") = true
        ∨ falsyOpt (getField data "balance") = true
        ∨ falsyOpt (getField data "timestamp") = true)) ∧
    (update_balance data = (400, []) ∨
      update_balance data = (200, [((getField data "timestamp").getD JVal.null,
        (getField data "peer_id").getD JVal.null,
        (getField data "balance").getD JVal.null)])) := by
  rw [update_balance]
  rcases hemp : data.isEmpty with _ | _
  · have hne : ¬ data = [] := by
      intro hc
      rw [hc] at hemp
      cases hemp
    rcases hp : falsyOpt (getField data "peer_id") with _ | _
    · rcases hb : falsyOpt (getField data "balance") with _ | _
      · rcases ht : falsyOpt (getField data "timestamp") with _ | _
        · simp [hemp, hp, hb, ht, hne]
        · simp [hemp, hp, hb, ht]
      · simp [hemp, hp, hb]
    · simp [hemp, hp]
  · have : data = [] := List.isEmpty_iff.mp hemp
    simp [hemp, this]

